import Mathlib

/-!
Shallow embedding of the signal-processing core of the wavr-tune repository:
the YIN pitch estimator (src/js/pitch-detector.js, `PitchDetector.detect`) and
the pitch-correction engine (src/js/app.js, `PitchCorrector`).

Modelling conventions:
* JS double-precision numbers are modelled by real numbers; audio blocks and
  the corrector's tail buffer (JS `Float32Array`) are `List ℝ`.
* JS `for` loops writing a fresh array become `List.map` over `List.range`;
  in-place loops carrying an accumulator become structural recursion.
* `Math.random()` inside `getTargetFrequency` is modelled by an explicit
  argument `rand` (the value drawn on that call).
* The corrector object's fields become the structure `CorrectorState`; a
  method that mutates fields returns the updated state.
* `Infinity` as the initial `bestDistance` of the scale search is modelled by
  `Option` (`none` compares greater than every actual distance, exactly as
  `Infinity` does against the finite distances produced by the loop).
* JS `x % 12` on the candidate semitone feeds `((c % 12) + 12) % 12`, which
  yields the canonical residue in `[0, 12)`; `Int.emod` in the same formula
  yields the same value.
-/

namespace WavrTune

/-! ### The scale-note search of `PitchCorrector.getTargetFrequency`
(src/js/app.js lines 893-909).  The loop `for (let offset = -6; offset <= 6;
offset++)` is a fold over the literal offset list. -/

def offsetList : List ℤ := [-6, -5, -4, -3, -2, -1, 0, 1, 2, 3, 4, 5, 6]

/-- Pitch class of an absolute semitone number: `((candidate % 12) + 12) % 12`
from src/js/app.js line 900. -/
def pcOf (candidate : ℤ) : ℤ := (candidate % 12 + 12) % 12

/-- One iteration of the `offset` loop of `getTargetFrequency`: if the
candidate's pitch class is in the scale and its distance to the fractional
note number beats the best so far (initially `Infinity`, modelled `none`),
it becomes the new best. -/
noncomputable def searchStep (noteNum : ℝ) (scaleNotes : List ℤ)
    (acc : Option ℝ × ℤ) (offset : ℤ) : Option ℝ × ℤ :=
  let candidate : ℤ := round noteNum + offset
  if pcOf candidate ∈ scaleNotes then
    let distance : ℝ := |noteNum - (candidate : ℝ)|
    match acc with
    | (none, _) => (some distance, candidate)
    | (some bestDistance, bestNoteNum) =>
        if distance < bestDistance then (some distance, candidate)
        else (some bestDistance, bestNoteNum)
  else acc

/-- The semitone number selected by the search loop of `getTargetFrequency`
(src/js/app.js lines 897-909): `bestNoteNum` starts at `Math.round(noteNum)`
with `bestDistance = Infinity`. -/
noncomputable def searchBest (noteNum : ℝ) (scaleNotes : List ℤ) : ℤ :=
  (offsetList.foldl (searchStep noteNum scaleNotes) (none, round noteNum)).2

/-! ### Corrector state and the pure (string/integer) parts -/

/-- The fields of a `PitchCorrector` instance (src/js/app.js lines 852-866):
user parameters and internal processing state. -/
structure CorrectorState where
  sampleRate : ℝ
  key : String
  scale : String
  correctionAmount : ℝ
  speed : ℝ
  humanize : ℝ
  formantShift : ℝ
  mix : ℝ
  smoothedPitch : ℝ
  smoothedRatioVal : ℝ
  prevDetectedFreq : ℝ
  grainSize : ℕ
  hopSize : ℕ
  crossfadeLength : ℕ
  prevOutput : List ℝ
  hasPrevOutput : Bool

/-- The scale table of the corrector constructor (src/js/app.js). -/
def scalesList : List (String × List ℤ) :=
  [("major", [0, 2, 4, 5, 7, 9, 11]),
   ("minor", [0, 2, 3, 5, 7, 8, 10]),
   ("pentatonic", [0, 2, 4, 7, 9]),
   ("blues", [0, 3, 5, 6, 7, 10]),
   ("dorian", [0, 2, 3, 5, 7, 9, 10]),
   ("mixolydian", [0, 2, 4, 5, 7, 9, 10]),
   ("chromatic", [0, 1, 2, 3, 4, 5, 6, 7, 8, 9, 10, 11])]

/-- The note-name table of the corrector constructor (src/js/app.js). -/
def noteToSemitoneList : List (String × ℤ) :=
  [("C", 0), ("C#", 1), ("D", 2), ("D#", 3), ("E", 4), ("F", 5),
   ("F#", 6), ("G", 7), ("G#", 8), ("A", 9), ("A#", 10), ("B", 11)]

/-- The chromatic pitch-class list `[0, ..., 11]`. -/
def chromNotes : List ℤ := [0, 1, 2, 3, 4, 5, 6, 7, 8, 9, 10, 11]

/-- `PitchCorrector.getScaleNotes` (src/js/app.js lines 874-878).
`this.noteToSemitone[this.key] || 0` yields `0` both for an unknown key and
for `'C'` (whose value `0` is falsy), matching `Option.getD 0`; likewise an
unknown scale falls back to the chromatic interval list. -/
def getScaleNotes (st : CorrectorState) : List ℤ :=
  let rootSemitone : ℤ := (noteToSemitoneList.lookup st.key).getD 0
  let scaleIntervals := (scalesList.lookup st.scale).getD chromNotes
  scaleIntervals.map (fun interval => (rootSemitone + interval) % 12)

noncomputable section

/-! ### Real-valued corrector operations -/

/-- Constructor state of `new PitchCorrector(sampleRate)`
(src/js/app.js lines 852-866). -/
def initState (sampleRate : ℝ) : CorrectorState :=
  { sampleRate := sampleRate, key := "C", scale := "major",
    correctionAmount := 0.75, speed := 25, humanize := 0.3,
    formantShift := 0, mix := 0.85,
    smoothedPitch := 0, smoothedRatioVal := 1, prevDetectedFreq := 0,
    grainSize := 1024, hopSize := 256, crossfadeLength := 128,
    prevOutput := List.replicate 128 0, hasPrevOutput := false }

/-- `PitchCorrector.getTargetFrequency` (src/js/app.js lines 886-922).
`rand` models the `Math.random()` draw of the humanize branch. -/
def getTargetFrequency (st : CorrectorState) (detectedFreq : ℝ)
    (scaleNotes : List ℤ) (rand : ℝ) : ℝ :=
  if detectedFreq ≤ 0 then detectedFreq
  else
    let noteNum : ℝ := 12 * Real.logb 2 (detectedFreq / 440)
    let bestNoteNum : ℤ := searchBest noteNum scaleNotes
    let targetFreq : ℝ := 440 * (2 : ℝ) ^ ((bestNoteNum : ℝ) / 12)
    if st.humanize > 0 then
      let maxCentsDeviation := st.humanize * 15
      let randomCents := (rand - 0.5) * 2 * maxCentsDeviation
      targetFreq * (2 : ℝ) ^ (randomCents / 1200)
    else targetFreq

/-- `PitchCorrector.grainShift` (src/js/app.js lines 988-1027): resampling by
linear interpolation followed by a Hann fade of the first and last
`min(64, length/4)` samples; ratios within `0.001` of `1` copy the input. -/
def grainShift (input : List ℝ) (ratio : ℝ) : List ℝ :=
  if |ratio - 1| < 0.001 then input
  else
    let length := input.length
    let resampled : List ℝ := (List.range length).map (fun i =>
      let readPos : ℝ := (i : ℝ) * ratio
      let readIndex : ℤ := ⌊readPos⌋
      let fraction : ℝ := readPos - (readIndex : ℝ)
      if 0 ≤ readIndex ∧ readIndex < (length : ℤ) - 1 then
        input.getD readIndex.toNat 0 * (1 - fraction) +
          input.getD (readIndex.toNat + 1) 0 * fraction
      else if 0 ≤ readIndex ∧ readIndex < (length : ℤ) then
        input.getD readIndex.toNat 0
      else 0)
    let fadeLength := min 64 (length / 4)
    (List.range length).map (fun i =>
      let fadedIn : ℝ :=
        if i < fadeLength then
          resampled.getD i 0 *
            (0.5 * (1 - Real.cos (Real.pi * (i : ℝ) / (fadeLength : ℝ))))
        else resampled.getD i 0
      if length - 1 - i < fadeLength then
        fadedIn *
          (0.5 * (1 - Real.cos (Real.pi * ((length - 1 - i : ℕ) : ℝ) / (fadeLength : ℝ))))
      else fadedIn)

/-- `PitchCorrector.crossfadeBlocks` (src/js/app.js lines 1033-1046): blend
the first `min(crossfadeLength, N)` samples against the stored tail; no-op
when no tail exists yet. -/
def crossfadeBlocks (st : CorrectorState) (current : List ℝ) : List ℝ :=
  if st.hasPrevOutput then
    let fadeLen := min st.crossfadeLength current.length
    (List.range current.length).map (fun i =>
      if i < fadeLen then
        let fadeIn : ℝ := (i : ℝ) / (fadeLen : ℝ)
        let fadeOut : ℝ := 1 - fadeIn
        current.getD i 0 * fadeIn + st.prevOutput.getD i 0 * fadeOut
      else current.getD i 0)
  else current

/-- `PitchCorrector.processBuffer` (src/js/app.js lines 929-979): the main
per-block operation.  Returns the output block and the updated state. -/
def processBuffer (st : CorrectorState) (inputBuffer : List ℝ)
    (detectedFrequency : ℝ) (rand : ℝ) : List ℝ × CorrectorState :=
  let scaleNotes := getScaleNotes st
  let targetFreq := getTargetFrequency st detectedFrequency scaleNotes rand
  if detectedFrequency ≤ 0 ∨ targetFreq ≤ 0 then (inputBuffer, st)
  else
    let shiftRatioVal := targetFreq / detectedFrequency
    let targetRatioVal := 1 + (shiftRatioVal - 1) * st.correctionAmount
    let speedSamples := max 1 ((st.speed / 1000) * st.sampleRate)
    let smoothingFactor := min 1 ((inputBuffer.length : ℝ) / speedSamples)
    let newSmoothed :=
      st.smoothedRatioVal + (targetRatioVal - st.smoothedRatioVal) * smoothingFactor
    let shifted := grainShift inputBuffer newSmoothed
    let output := crossfadeBlocks st shifted
    let mixed : List ℝ := (List.range inputBuffer.length).map (fun i =>
      inputBuffer.getD i 0 * (1 - st.mix) + output.getD i 0 * st.mix)
    let tailStart := mixed.length - st.crossfadeLength
    let newPrevOutput : List ℝ := (List.range st.crossfadeLength).map (fun i =>
      if tailStart + i < mixed.length then mixed.getD (tailStart + i) 0
      else st.prevOutput.getD i 0)
    (mixed, { st with
        smoothedRatioVal := newSmoothed,
        prevOutput := newPrevOutput,
        hasPrevOutput := true,
        prevDetectedFreq := detectedFrequency })

/-- A partial parameter update object for `PitchCorrector.setParams`
(src/js/app.js lines 1062-1086); `none` models an absent field. -/
structure ParamsUpdate where
  key : Option String
  scale : Option String
  correction : Option ℝ
  speed : Option ℝ
  humanize : Option ℝ
  formant : Option ℝ
  mix : Option ℝ

/-- `PitchCorrector.setParams` (src/js/app.js lines 1062-1086): each provided
field is mapped to its internal range and merged; absent fields are left
untouched. -/
def setParams (st : CorrectorState) (params : ParamsUpdate) : CorrectorState :=
  let st1 := match params.key with
    | some k => { st with key := k } | none => st
  let st2 := match params.scale with
    | some s => { st1 with scale := s } | none => st1
  let st3 := match params.correction with
    | some c => { st2 with correctionAmount := c / 100 } | none => st2
  let st4 := match params.speed with
    | some s => { st3 with speed := s * 0.5 } | none => st3
  let st5 := match params.humanize with
    | some h => { st4 with humanize := h / 100 } | none => st4
  let st6 := match params.formant with
    | some f => { st5 with formantShift := (f - 50) * 0.24 } | none => st5
  match params.mix with
    | some m => { st6 with mix := m / 100 } | none => st6

/-- `PitchCorrector.reset` (src/js/app.js lines 1107-1113). -/
def reset (st : CorrectorState) : CorrectorState :=
  { st with
    smoothedRatioVal := 1
    smoothedPitch := 0
    prevDetectedFreq := 0
    hasPrevOutput := false
    prevOutput := List.replicate st.prevOutput.length 0 }

/-! ### The YIN estimator (src/js/pitch-detector.js, `PitchDetector.detect`) -/

/-- RMS energy of a block (src/js/pitch-detector.js lines 44-48). -/
def rmsOf (buffer : List ℝ) : ℝ :=
  Real.sqrt ((buffer.map (fun s => s * s)).sum / (buffer.length : ℝ))

/-- The YIN difference function `d(tau)` (src/js/pitch-detector.js lines
59-65); out-of-range reads never occur for `tau < N/2`. -/
def diffFn (buffer : List ℝ) (tau : ℕ) : ℝ :=
  ((List.range (buffer.length / 2)).map (fun i =>
    let delta := buffer.getD i 0 - buffer.getD (i + tau) 0
    delta * delta)).sum

/-- The in-place CMND normalisation loop (src/js/pitch-detector.js lines
70-76): produce the entries for `tau, tau+1, ...` carrying `runningSum`,
which accumulates the raw difference values before each entry is scaled by
`tau / runningSum`. -/
def cmndGo (d : ℕ → ℝ) : ℕ → ℕ → ℝ → List ℝ
  | 0, _, _ => []
  | n + 1, tau, runningSum =>
      let newSum := runningSum + d tau
      (d tau * ((tau : ℝ) / newSum)) :: cmndGo d n (tau + 1) newSum

/-- The normalised buffer `yinBuffer[0 .. N/2)` after steps 2 and 3 of
`detect`: entry 0 is set to `1`, the rest by the CMND loop. -/
def cmndList (buffer : List ℝ) : List ℝ :=
  1 :: cmndGo (diffFn buffer) (buffer.length / 2 - 1) 1 0

/-- The inner `while` of step 4 of `detect` (src/js/pitch-detector.js lines
86-88): walk to the bottom of the dip.  The fuel argument bounds the walk by
`halfBuffer`, which the JS loop condition `tau + 1 < halfBuffer` never
exceeds. -/
def walkDip (yin : List ℝ) (halfBuffer : ℕ) : ℕ → ℕ → ℕ
  | 0, tau => tau
  | fuel + 1, tau =>
      if tau + 1 < halfBuffer ∧ yin.getD (tau + 1) 0 < yin.getD tau 0 then
        walkDip yin halfBuffer fuel (tau + 1)
      else tau

/-- The outer scan of step 4 of `detect` (src/js/pitch-detector.js lines
81-92): first `tau ≥ 2` with CMND below threshold, then descend the dip.
Fuel bounds the scan by `halfBuffer`, the JS loop bound. -/
def findDip (yin : List ℝ) (halfBuffer : ℕ) (threshold : ℝ) :
    ℕ → ℕ → Option ℕ
  | 0, _ => none
  | fuel + 1, tau =>
      if tau < halfBuffer then
        if yin.getD tau 0 < threshold then
          some (walkDip yin halfBuffer halfBuffer tau)
        else findDip yin halfBuffer threshold fuel (tau + 1)
      else none

/-- `PitchDetector.detect` (src/js/pitch-detector.js lines 37-133).
Returns `(frequency, clarity)`; the unvoiced sentinel is `(-1, 0)`.
`threshold` is the instance field `this.threshold` (default `0.15`). -/
def detect (sampleRate threshold : ℝ) (buffer : List ℝ) : ℝ × ℝ :=
  let halfBuffer := buffer.length / 2
  if rmsOf buffer < 0.01 then (-1, 0)
  else
    let yinBuffer := cmndList buffer
    match findDip yinBuffer halfBuffer threshold halfBuffer 2 with
    | none => (-1, 0)
    | some tauEstimate =>
        let x0 := if tauEstimate < 1 then tauEstimate else tauEstimate - 1
        let x2 := if tauEstimate + 1 < halfBuffer then tauEstimate + 1 else tauEstimate
        let betterTau : ℝ :=
          if x0 = tauEstimate then
            (if yinBuffer.getD tauEstimate 0 ≤ yinBuffer.getD x2 0 then
              (tauEstimate : ℝ) else (x2 : ℝ))
          else if x2 = tauEstimate then
            (if yinBuffer.getD tauEstimate 0 ≤ yinBuffer.getD x0 0 then
              (tauEstimate : ℝ) else (x0 : ℝ))
          else
            let s0 := yinBuffer.getD x0 0
            let s1 := yinBuffer.getD tauEstimate 0
            let s2 := yinBuffer.getD x2 0
            (tauEstimate : ℝ) + (s2 - s0) / (2 * (2 * s1 - s2 - s0))
        let frequency := sampleRate / betterTau
        let clarity := 1 - yinBuffer.getD tauEstimate 0
        if frequency < 50 ∨ frequency > 1200 then (-1, 0)
        else (frequency, max 0 (min 1 clarity))

/-! ### Specification predicate for the scale search, and concrete data -/

/-- Loop invariant of the `offset` scan: after the offsets in `seen` have
been processed, the accumulator either still holds `Infinity` (no candidate
of `seen` was in scale) or holds the first candidate of `seen` attaining the
minimal distance. -/
def searchGood (noteNum : ℝ) (scaleNotes : List ℤ) (seen : List ℤ) :
    Option ℝ × ℤ → Prop
  | (none, n) =>
      n = round noteNum ∧ ∀ o ∈ seen, pcOf (round noteNum + o) ∉ scaleNotes
  | (some d, n) => ∃ o' ∈ seen,
      pcOf (round noteNum + o') ∈ scaleNotes ∧
      n = round noteNum + o' ∧
      d = |noteNum - ((round noteNum + o' : ℤ) : ℝ)| ∧
      (∀ o ∈ seen, pcOf (round noteNum + o) ∈ scaleNotes →
        d ≤ |noteNum - ((round noteNum + o : ℤ) : ℝ)|) ∧
      (∀ o ∈ seen, pcOf (round noteNum + o) ∈ scaleNotes →
        |noteNum - ((round noteNum + o : ℤ) : ℝ)| = d → o' ≤ o)

/-- A corrector state with a warm crossfade tail: chromatic scale in C, zero
correction amount, zero humanize, full wet mix, unit smoothed ratio, zeroed
tail marked as present. -/
def stWarm : CorrectorState :=
  { sampleRate := 48000, key := "C", scale := "chromatic", correctionAmount := 0,
    speed := 0, humanize := 0, formantShift := 0, mix := 1,
    smoothedPitch := 0, smoothedRatioVal := 1, prevDetectedFreq := 0,
    grainSize := 1024, hopSize := 256, crossfadeLength := 128,
    prevOutput := List.replicate 128 0, hasPrevOutput := true }

/-- The same state in the cold phase (no tail yet). -/
def stCold : CorrectorState := { stWarm with hasPrevOutput := false }

/-- Concrete block `[1, 0, 1, 0]` used to exercise the CMND computation. -/
def blk4 : List ℝ := [1, 0, 1, 0]

/-- Concrete period-2 block used to exercise the full detector. -/
def blk8 : List ℝ := [1, -1, 1, -1, 1, -1, 1, -1]

end

/-! ## Helper lemmas -/

lemma getTargetFrequency_pos (st : CorrectorState) (f : ℝ) (sc : List ℤ)
    (rand : ℝ) (hf : 0 < f) : 0 < getTargetFrequency st f sc rand := by
  unfold getTargetFrequency
  rw [if_neg (not_le.mpr hf)]
  dsimp only
  split_ifs
  · positivity
  · positivity

lemma processBuffer_unvoiced (st : CorrectorState) (x : List ℝ) (f rand : ℝ)
    (hf : f ≤ 0) : processBuffer st x f rand = (x, st) := by
  unfold processBuffer
  rw [if_pos (Or.inl hf)]

lemma grainShift_near_one (input : List ℝ) (ratio : ℝ)
    (h : |ratio - 1| < 0.001) : grainShift input ratio = input := by
  unfold grainShift
  rw [if_pos h]

lemma crossfadeBlocks_cold (st : CorrectorState) (current : List ℝ)
    (h : st.hasPrevOutput = false) : crossfadeBlocks st current = current := by
  unfold crossfadeBlocks
  rw [h]
  simp

lemma mix_self (l : List ℝ) (m : ℝ) :
    (List.range l.length).map (fun i => l.getD i 0 * (1 - m) + l.getD i 0 * m) = l := by
  apply List.ext_getElem
  · simp
  · intro i h1 h2
    simp only [List.getElem_map, List.getElem_range]
    rw [List.getD_eq_getElem l 0 h2]
    ring

lemma mem_offsetList {o : ℤ} : o ∈ offsetList ↔ -6 ≤ o ∧ o ≤ 6 := by
  constructor
  · intro h
    simp only [offsetList, List.mem_cons, List.not_mem_nil, or_false] at h
    omega
  · intro h
    simp only [offsetList, List.mem_cons, List.not_mem_nil, or_false]
    omega

lemma searchStep_good (noteNum : ℝ) (sc : List ℤ) (seen : List ℤ)
    (acc : Option ℝ × ℤ) (o : ℤ)
    (hacc : searchGood noteNum sc seen acc) (hlt : ∀ a ∈ seen, a < o) :
    searchGood noteNum sc (seen ++ [o]) (searchStep noteNum sc acc o) := by
  obtain ⟨d?, n⟩ := acc
  unfold searchStep
  dsimp only
  by_cases hP : pcOf (round noteNum + o) ∈ sc
  · rw [if_pos hP]
    cases d? with
    | none =>
        obtain ⟨hn, hnone⟩ := hacc
        refine ⟨o, by simp, hP, rfl, rfl, ?_, ?_⟩
        · intro a ha hPa
          rcases List.mem_append.mp ha with h | h
          · exact absurd hPa (hnone a h)
          · simp only [List.mem_singleton] at h
            subst h
            exact le_refl _
        · intro a ha hPa _
          rcases List.mem_append.mp ha with h | h
          · exact absurd hPa (hnone a h)
          · simp only [List.mem_singleton] at h
            omega
    | some d =>
        obtain ⟨o', ho', hPo', hn, hd, hmin, htie⟩ := hacc
        dsimp only
        by_cases hcmp : |noteNum - ((round noteNum + o : ℤ) : ℝ)| < d
        · rw [if_pos hcmp]
          refine ⟨o, by simp, hP, rfl, rfl, ?_, ?_⟩
          · intro a ha hPa
            rcases List.mem_append.mp ha with h | h
            · exact le_trans (le_of_lt hcmp) (hmin a h hPa)
            · simp only [List.mem_singleton] at h
              subst h
              exact le_refl _
          · intro a ha hPa heq
            rcases List.mem_append.mp ha with h | h
            · have hge := hmin a h hPa
              rw [heq] at hge
              exact absurd hcmp (not_lt.mpr hge)
            · simp only [List.mem_singleton] at h
              omega
        · rw [if_neg hcmp]
          refine ⟨o', List.mem_append.mpr (Or.inl ho'), hPo', hn, hd, ?_, ?_⟩
          · intro a ha hPa
            rcases List.mem_append.mp ha with h | h
            · exact hmin a h hPa
            · simp only [List.mem_singleton] at h
              subst h
              exact not_lt.mp hcmp
          · intro a ha hPa heq
            rcases List.mem_append.mp ha with h | h
            · exact htie a h hPa heq
            · simp only [List.mem_singleton] at h
              subst h
              exact le_of_lt (hlt o' ho')
  · rw [if_neg hP]
    cases d? with
    | none =>
        obtain ⟨hn, hnone⟩ := hacc
        refine ⟨hn, ?_⟩
        intro a ha
        rcases List.mem_append.mp ha with h | h
        · exact hnone a h
        · simp only [List.mem_singleton] at h
          subst h
          exact hP
    | some d =>
        obtain ⟨o', ho', hPo', hn, hd, hmin, htie⟩ := hacc
        refine ⟨o', List.mem_append.mpr (Or.inl ho'), hPo', hn, hd, ?_, ?_⟩
        · intro a ha hPa
          rcases List.mem_append.mp ha with h | h
          · exact hmin a h hPa
          · simp only [List.mem_singleton] at h
            subst h
            exact absurd hPa hP
        · intro a ha hPa heq
          rcases List.mem_append.mp ha with h | h
          · exact htie a h hPa heq
          · simp only [List.mem_singleton] at h
            subst h
            exact absurd hPa hP

lemma searchFold_good (noteNum : ℝ) (sc : List ℤ) :
    ∀ (rest : List ℤ) (seen : List ℤ) (acc : Option ℝ × ℤ),
      searchGood noteNum sc seen acc →
      (∀ a ∈ seen, ∀ b ∈ rest, a < b) →
      rest.Pairwise (· < ·) →
      searchGood noteNum sc (seen ++ rest) (rest.foldl (searchStep noteNum sc) acc) := by
  intro rest
  induction rest with
  | nil =>
      intro seen acc hacc _ _
      simpa using hacc
  | cons o t ih =>
      intro seen acc hacc hcross hpair
      rw [List.foldl_cons]
      have h1 : searchGood noteNum sc (seen ++ [o]) (searchStep noteNum sc acc o) :=
        searchStep_good noteNum sc seen acc o hacc
          (fun a ha => hcross a ha o (by simp))
      have hcross' : ∀ a ∈ seen ++ [o], ∀ b ∈ t, a < b := by
        intro a ha b hb
        rcases List.mem_append.mp ha with h | h
        · exact hcross a h b (by simp [hb])
        · simp only [List.mem_singleton] at h
          subst h
          exact (List.pairwise_cons.mp hpair).1 b hb
      have hres := ih (seen ++ [o]) (searchStep noteNum sc acc o) h1 hcross'
        (List.pairwise_cons.mp hpair).2
      simpa [List.append_assoc] using hres

lemma searchBest_spec (noteNum : ℝ) (sc : List ℤ)
    (hex : ∃ o ∈ offsetList, pcOf (round noteNum + o) ∈ sc) :
    (searchBest noteNum sc - round noteNum) ∈ offsetList ∧
    pcOf (searchBest noteNum sc) ∈ sc ∧
    ∀ m : ℤ, (m - round noteNum) ∈ offsetList → pcOf m ∈ sc →
      |noteNum - (searchBest noteNum sc : ℝ)| ≤ |noteNum - (m : ℝ)| ∧
      (|noteNum - (searchBest noteNum sc : ℝ)| = |noteNum - (m : ℝ)| →
        searchBest noteNum sc ≤ m) := by
  have hgood0 : searchGood noteNum sc [] (none, round noteNum) := by
    exact ⟨rfl, by simp⟩
  have hg := searchFold_good noteNum sc offsetList [] (none, round noteNum) hgood0
    (by intro a ha; simp at ha) (by decide)
  rw [List.nil_append] at hg
  unfold searchBest
  rcases hres : offsetList.foldl (searchStep noteNum sc) (none, round noteNum)
    with ⟨d?, n⟩
  rw [hres] at hg
  cases d? with
  | none =>
      obtain ⟨o, ho, hP⟩ := hex
      obtain ⟨_, hnone⟩ := hg
      exact absurd hP (hnone o ho)
  | some d =>
      obtain ⟨o', ho', hP', hn, hd, hmin, htie⟩ := hg
      dsimp only
      subst hn
      refine ⟨by simpa using ho', hP', ?_⟩
      intro m hmo hmP
      have hm : round noteNum + (m - round noteNum) = m := by ring
      have hmP' : pcOf (round noteNum + (m - round noteNum)) ∈ sc := by
        rw [hm]
        exact hmP
      have hmin' := hmin (m - round noteNum) hmo hmP'
      have htie' := htie (m - round noteNum) hmo hmP'
      rw [hm] at hmin' htie'
      constructor
      · rw [← hd] at *
        exact hmin'
      · intro heq
        have := htie' (by rw [← hd] at heq; exact heq.symm)
        omega

lemma exists_offset_inScale (r : ℤ) (sc : List ℤ) (j : ℤ)
    (hj : j ∈ sc) (h0 : 0 ≤ j) (h12 : j < 12) :
    ∃ o ∈ offsetList, pcOf (r + o) ∈ sc := by
  refine ⟨if (j - r) % 12 ≤ 6 then (j - r) % 12 else (j - r) % 12 - 12, ?_, ?_⟩
  · rw [mem_offsetList]
    split <;> omega
  · have hpc : pcOf (r + if (j - r) % 12 ≤ 6 then (j - r) % 12 else (j - r) % 12 - 12) = j := by
      unfold pcOf
      split <;> omega
    rw [hpc]
    exact hj

lemma getTargetFrequency_no_humanize (st : CorrectorState) (f : ℝ) (sc : List ℤ)
    (rand : ℝ) (hf : 0 < f) (hh : st.humanize = 0) :
    getTargetFrequency st f sc rand =
      440 * (2 : ℝ) ^ ((searchBest (12 * Real.logb 2 (f / 440)) sc : ℝ) / 12) := by
  unfold getTargetFrequency
  rw [if_neg (not_le.mpr hf), hh]
  norm_num

lemma searchBest_zero_chrom : searchBest 0 chromNotes = 0 := by
  have h : round ((0 : ℝ)) = 0 := by norm_num
  norm_num [searchBest, searchStep, offsetList, List.foldl, pcOf, chromNotes, h,
    abs_of_nonneg, abs_of_nonpos]

lemma searchBest_five_halves_chrom : searchBest (5 / 2) chromNotes = 2 := by
  have h : round ((5 / 2 : ℝ)) = 3 := by norm_num [round_eq]
  norm_num [searchBest, searchStep, offsetList, List.foldl, pcOf, chromNotes, h,
    abs_of_nonneg, abs_of_nonpos]

lemma getTargetFrequency_440 (st : CorrectorState) (rand : ℝ)
    (hsc : getScaleNotes st = chromNotes) (hh : st.humanize = 0) :
    getTargetFrequency st 440 (getScaleNotes st) rand = 440 := by
  rw [hsc, getTargetFrequency_no_humanize st 440 chromNotes rand (by norm_num) hh]
  have h1 : (12 : ℝ) * Real.logb 2 (440 / 440) = 0 := by
    norm_num [Real.logb_one]
  rw [h1, searchBest_zero_chrom]
  norm_num

/-! ## Claim theorems -/

/-- C8: for every input block, resampling (`grainShift`) with a ratio whose
distance from `1` is below `0.001` returns the input unchanged, bypassing
both the interpolation path and the edge fade window. -/
theorem C8_unity_ratio_bypass (input : List ℝ) (ratio : ℝ)
    (h : |ratio - 1| < 0.001) : grainShift input ratio = input :=
  grainShift_near_one input ratio h

/-- Witness for C8 at ratio exactly `1`. -/
theorem C8_witness : grainShift [2, 3] 1 = [2, 3] :=
  C8_unity_ratio_bypass [2, 3] 1 (by norm_num)

/-- C10: a `processBuffer` call with non-positive detected frequency returns
the input block unchanged (the JS code returns a fresh copy, which is value
equality here) and leaves the whole corrector state untouched. -/
theorem C10_unvoiced_passthrough (st : CorrectorState) (x : List ℝ)
    (f rand : ℝ) (hf : f ≤ 0) : processBuffer st x f rand = (x, st) :=
  processBuffer_unvoiced st x f rand hf

/-- Witness for C10 on a concrete warm state and unvoiced frequency. -/
theorem C10_witness : processBuffer stWarm [3, 4] (-1) 0 = ([3, 4], stWarm) :=
  C10_unvoiced_passthrough stWarm [3, 4] (-1) 0 (by norm_num)

/-- C5: on every voiced call, the persistent smoothed ratio is updated by
exactly one step of the one-pole filter
`smoothedRatio + (desiredRatio - smoothedRatio) * alpha` with
`desiredRatio = 1 + (target/detected - 1) * correctionAmount` and
`alpha = min 1 (N / max 1 ((speed/1000) * sampleRate))`, starting from the
value carried over in the state. -/
theorem C5_ratio_smoothing (st : CorrectorState) (x : List ℝ) (f rand : ℝ)
    (hf : 0 < f) :
    (processBuffer st x f rand).2.smoothedRatioVal =
      st.smoothedRatioVal +
        ((1 + (getTargetFrequency st f (getScaleNotes st) rand / f - 1) *
            st.correctionAmount) - st.smoothedRatioVal) *
          min 1 ((x.length : ℝ) / max 1 ((st.speed / 1000) * st.sampleRate)) := by
  unfold processBuffer
  rw [if_neg (not_or.mpr ⟨not_le.mpr hf,
    not_le.mpr (getTargetFrequency_pos st f (getScaleNotes st) rand hf)⟩)]

/-- Witness for C5 on a concrete state and block at 440 Hz. -/
theorem C5_witness :
    (processBuffer stWarm [1] 440 0).2.smoothedRatioVal =
      stWarm.smoothedRatioVal +
        ((1 + (getTargetFrequency stWarm 440 (getScaleNotes stWarm) 0 / 440 - 1) *
            stWarm.correctionAmount) - stWarm.smoothedRatioVal) *
          min 1 ((([1] : List ℝ).length : ℝ) /
            max 1 ((stWarm.speed / 1000) * stWarm.sampleRate)) :=
  C5_ratio_smoothing stWarm [1] 440 0 (by norm_num)

/-- C3: the has-tail flag is false at construction and after `reset` (and in
that cold phase the crossfade step is a no-op); `reset` also sets the
smoothed ratio to `1` and zeroes the tail buffer; a voiced `processBuffer`
call sets the flag, and no `processBuffer` call ever clears it. -/
theorem C3_tail_flag_lifecycle :
    (∀ sr : ℝ, (initState sr).hasPrevOutput = false) ∧
    (∀ st : CorrectorState, (reset st).hasPrevOutput = false ∧
      (reset st).smoothedRatioVal = 1 ∧
      (reset st).prevOutput = List.replicate st.prevOutput.length 0) ∧
    (∀ (st : CorrectorState) (cur : List ℝ), st.hasPrevOutput = false →
      crossfadeBlocks st cur = cur) ∧
    (∀ (st : CorrectorState) (x : List ℝ) (f rand : ℝ), 0 < f →
      (processBuffer st x f rand).2.hasPrevOutput = true) ∧
    (∀ (st : CorrectorState) (x : List ℝ) (f rand : ℝ),
      st.hasPrevOutput = true →
      (processBuffer st x f rand).2.hasPrevOutput = true) := by
  refine ⟨fun sr => rfl, fun st => ⟨rfl, rfl, rfl⟩,
    fun st cur h => crossfadeBlocks_cold st cur h, ?_, ?_⟩
  · intro st x f rand hf
    unfold processBuffer
    rw [if_neg (not_or.mpr ⟨not_le.mpr hf,
      not_le.mpr (getTargetFrequency_pos st f (getScaleNotes st) rand hf)⟩)]
  · intro st x f rand hw
    by_cases hf : f ≤ 0
    · rw [processBuffer_unvoiced st x f rand hf]
      exact hw
    · push_neg at hf
      unfold processBuffer
      rw [if_neg (not_or.mpr ⟨not_le.mpr hf,
        not_le.mpr (getTargetFrequency_pos st f (getScaleNotes st) rand hf)⟩)]

/-- Witness for C3: construction and reset are cold, a voiced block warms a
cold state, and an unvoiced block keeps a warm state warm. -/
theorem C3_witness :
    (initState 48000).hasPrevOutput = false ∧
    (reset stWarm).hasPrevOutput = false ∧
    (processBuffer stCold [1] 440 0).2.hasPrevOutput = true ∧
    (processBuffer stWarm [1] (-1) 0).2.hasPrevOutput = true :=
  ⟨C3_tail_flag_lifecycle.1 48000,
   (C3_tail_flag_lifecycle.2.1 stWarm).1,
   C3_tail_flag_lifecycle.2.2.2.1 stCold [1] 440 0 (by norm_num),
   C3_tail_flag_lifecycle.2.2.2.2 stWarm [1] (-1) 0 rfl⟩

/-- C9: `setParams` merges exactly the provided fields (with their documented
range mappings) and leaves absent fields and the runtime processing state
(smoothed ratio, tail buffer, has-tail flag) untouched. -/
theorem C9_setParams_partial (st : CorrectorState) (p : ParamsUpdate) :
    (setParams st p).smoothedRatioVal = st.smoothedRatioVal ∧
    (setParams st p).prevOutput = st.prevOutput ∧
    (setParams st p).hasPrevOutput = st.hasPrevOutput ∧
    (setParams st p).key = p.key.getD st.key ∧
    (setParams st p).scale = p.scale.getD st.scale ∧
    (setParams st p).correctionAmount =
      (p.correction.map (fun c => c / 100)).getD st.correctionAmount ∧
    (setParams st p).speed = (p.speed.map (fun s => s * 0.5)).getD st.speed ∧
    (setParams st p).humanize =
      (p.humanize.map (fun h => h / 100)).getD st.humanize ∧
    (setParams st p).formantShift =
      (p.formant.map (fun v => (v - 50) * 0.24)).getD st.formantShift ∧
    (setParams st p).mix = (p.mix.map (fun m => m / 100)).getD st.mix := by
  obtain ⟨k, s, c, sp, hu, fo, m⟩ := p
  cases k <;> cases s <;> cases c <;> cases sp <;> cases hu <;> cases fo <;>
    cases m <;> simp [setParams]

/-- C1 (amended): with `correctionAmount = 0` and the corrector in the cold
phase with its smoothing state at rest (`hasPrevOutput = false`,
`smoothedRatio = 1`, as after `reset`), `processBuffer` returns the dry
input for every detected frequency and every mix setting. -/
theorem C1_amended_zero_correction (st : CorrectorState) (x : List ℝ)
    (f rand : ℝ) (hcorr : st.correctionAmount = 0)
    (hcold : st.hasPrevOutput = false) (hratio : st.smoothedRatioVal = 1) :
    (processBuffer st x f rand).1 = x := by
  by_cases hf : f ≤ 0
  · rw [processBuffer_unvoiced st x f rand hf]
  · push_neg at hf
    have hT := getTargetFrequency_pos st f (getScaleNotes st) rand hf
    unfold processBuffer
    rw [if_neg (not_or.mpr ⟨not_le.mpr hf, not_le.mpr hT⟩)]
    simp only [hcorr, hratio, mul_zero, add_zero, sub_self, zero_mul]
    simp only [grainShift_near_one x 1 (by norm_num),
      crossfadeBlocks_cold st x hcold]
    exact mix_self x st.mix

/-- Witness for the amended C1 on a concrete cold state. -/
theorem C1_witness : (processBuffer stCold [5] (-1) 0).1 = [5] :=
  C1_amended_zero_correction stCold [5] (-1) 0 rfl rfl rfl

/-- C1 (counterexample): with `correctionAmount = 0` but a warm crossfade
tail, `processBuffer` does not return the dry input — the first output
sample is blended from the stored tail, so the claim fails for states with
prior runtime state, at detected frequency 440 Hz, block `[1, 1]`, mix 1. -/
theorem C1_counterexample : (processBuffer stWarm [1, 1] 440 0).1 ≠ [1, 1] := by
  have hT : getTargetFrequency stWarm 440 (getScaleNotes stWarm) 0 = 440 :=
    getTargetFrequency_440 stWarm 0 rfl rfl
  have key : (processBuffer stWarm [1, 1] 440 0).1 = [0, 1 / 2] := by
    simp only [processBuffer]
    rw [hT, if_neg (by norm_num)]
    have hNR : stWarm.smoothedRatioVal +
        ((1 + (440 / 440 - 1) * stWarm.correctionAmount) - stWarm.smoothedRatioVal) *
          min 1 ((([1, 1] : List ℝ).length : ℝ) /
            max 1 ((stWarm.speed / 1000) * stWarm.sampleRate)) = 1 := by
      show (1 : ℝ) + ((1 + (440 / 440 - 1) * 0) - 1) *
        min 1 ((([1, 1] : List ℝ).length : ℝ) / max 1 ((0 / 1000) * 48000)) = 1
      norm_num
    rw [hNR]
    simp only [grainShift_near_one [(1 : ℝ), 1] 1 (by norm_num)]
    have hcf : crossfadeBlocks stWarm [1, 1] = [0, 1 / 2] := by
      unfold crossfadeBlocks
      rw [show stWarm.hasPrevOutput = true from rfl]
      norm_num [show stWarm.crossfadeLength = 128 from rfl,
        show stWarm.prevOutput = List.replicate 128 (0 : ℝ) from rfl,
        show min (128 : ℕ) 2 = 2 from rfl,
        show (List.replicate 128 (0 : ℝ)).getD 0 0 = 0 from rfl,
        show (List.replicate 128 (0 : ℝ)).getD 1 0 = 0 from rfl,
        List.range_succ]
    simp only [hcf]
    norm_num [show stWarm.mix = (1 : ℝ) from rfl, List.range_succ]
  rw [key]
  intro h
  norm_num at h

/-- C2 (amended): for every detected frequency `f > 0` and non-empty
pitch-class set (elements in `[0, 12)`), `getTargetFrequency` with
`humanizeAmount = 0` returns `440 * 2 ^ (n / 12)` where `n` is an integer
semitone number within `±6` of `round (12 * log2 (f / 440))`, whose pitch
class is in the set, whose distance to the fractional input is smallest,
and — among candidates tied on distance — `n` is the lowest candidate
(the first offset in the `-6..6` scan order). -/
theorem C2_amended_target_search (st : CorrectorState) (f rand : ℝ)
    (sc : List ℤ) (hf : 0 < f) (hh : st.humanize = 0)
    (hsc : ∃ j ∈ sc, 0 ≤ j ∧ j < 12) :
    ∃ n : ℤ,
      getTargetFrequency st f sc rand = 440 * (2 : ℝ) ^ ((n : ℝ) / 12) ∧
      -6 ≤ n - round (12 * Real.logb 2 (f / 440)) ∧
      n - round (12 * Real.logb 2 (f / 440)) ≤ 6 ∧
      pcOf n ∈ sc ∧
      ∀ m : ℤ, -6 ≤ m - round (12 * Real.logb 2 (f / 440)) →
        m - round (12 * Real.logb 2 (f / 440)) ≤ 6 → pcOf m ∈ sc →
        |12 * Real.logb 2 (f / 440) - (n : ℝ)| ≤
          |12 * Real.logb 2 (f / 440) - (m : ℝ)| ∧
        (|12 * Real.logb 2 (f / 440) - (n : ℝ)| =
            |12 * Real.logb 2 (f / 440) - (m : ℝ)| → n ≤ m) := by
  obtain ⟨j, hj, hj0, hj12⟩ := hsc
  have hex := exists_offset_inScale (round (12 * Real.logb 2 (f / 440))) sc j hj hj0 hj12
  have hspec := searchBest_spec (12 * Real.logb 2 (f / 440)) sc hex
  refine ⟨searchBest (12 * Real.logb 2 (f / 440)) sc,
    getTargetFrequency_no_humanize st f sc rand hf hh,
    (mem_offsetList.mp hspec.1).1, (mem_offsetList.mp hspec.1).2,
    hspec.2.1, ?_⟩
  intro m h1 h2 hP
  exact hspec.2.2 m (mem_offsetList.mpr ⟨h1, h2⟩) hP

/-- Witness for the amended C2 at 440 Hz against the single pitch class A. -/
theorem C2_witness :
    ∃ n : ℤ,
      getTargetFrequency stWarm 440 [9] 0 = 440 * (2 : ℝ) ^ ((n : ℝ) / 12) ∧
      -6 ≤ n - round (12 * Real.logb 2 ((440 : ℝ) / 440)) ∧
      n - round (12 * Real.logb 2 ((440 : ℝ) / 440)) ≤ 6 ∧
      pcOf n ∈ [9] ∧
      ∀ m : ℤ, -6 ≤ m - round (12 * Real.logb 2 ((440 : ℝ) / 440)) →
        m - round (12 * Real.logb 2 ((440 : ℝ) / 440)) ≤ 6 → pcOf m ∈ [9] →
        |12 * Real.logb 2 ((440 : ℝ) / 440) - (n : ℝ)| ≤
          |12 * Real.logb 2 ((440 : ℝ) / 440) - (m : ℝ)| ∧
        (|12 * Real.logb 2 ((440 : ℝ) / 440) - (n : ℝ)| =
            |12 * Real.logb 2 ((440 : ℝ) / 440) - (m : ℝ)| → n ≤ m) :=
  C2_amended_target_search stWarm 440 0 [9] (by norm_num) rfl
    ⟨9, by simp, by norm_num⟩

/-- C2 (counterexample): at the concrete frequency `440 * 2 ^ ((5/2)/12)`
(fractional semitone number `5/2`, rounded value `3`), the semitones `2` and
`3` tie on distance `1/2` and both have their pitch class in the chromatic
set; the claim's tie-break (smallest `|offset|` from the rounded value)
mandates `3` (offset `0`), but the code returns the frequency of semitone
`2` (offset `-1`), which is a different real number. -/
theorem C2_counterexample :
    getTargetFrequency stWarm (440 * (2 : ℝ) ^ ((5 / 2 : ℝ) / 12)) chromNotes 0 =
      440 * (2 : ℝ) ^ (((2 : ℤ) : ℝ) / 12) ∧
    round ((5 / 2 : ℝ)) = 3 ∧
    |(5 / 2 : ℝ) - ((3 : ℤ) : ℝ)| = |(5 / 2 : ℝ) - ((2 : ℤ) : ℝ)| ∧
    pcOf 3 ∈ chromNotes ∧
    440 * (2 : ℝ) ^ (((2 : ℤ) : ℝ) / 12) ≠ 440 * (2 : ℝ) ^ (((3 : ℤ) : ℝ) / 12) := by
  have hf : (0 : ℝ) < 440 * (2 : ℝ) ^ ((5 / 2 : ℝ) / 12) := by positivity
  refine ⟨?_, by norm_num [round_eq], by push_cast; norm_num [abs_sub_comm], by decide, ?_⟩
  · rw [getTargetFrequency_no_humanize stWarm _ chromNotes 0 hf rfl]
    have hlog : (12 : ℝ) * Real.logb 2 (440 * (2 : ℝ) ^ ((5 / 2 : ℝ) / 12) / 440) = 5 / 2 := by
      rw [mul_div_cancel_left₀ _ (by norm_num : (440 : ℝ) ≠ 0),
        Real.logb_rpow (by norm_num) (by norm_num)]
      norm_num
    rw [hlog, searchBest_five_halves_chrom]
  · intro h
    have h2 := mul_left_cancel₀ (by norm_num : (440 : ℝ) ≠ 0) h
    have h3 : ((2 : ℤ) : ℝ) / 12 < ((3 : ℤ) : ℝ) / 12 := by push_cast; norm_num
    exact absurd h2 (ne_of_lt ((Real.rpow_lt_rpow_left_iff (by norm_num)).mpr h3))

/-! ## Detector lemmas and claims -/

lemma sum_Icc_split (d : ℕ → ℝ) (a b : ℕ) (h : a ≤ b) :
    ∑ k in Finset.Icc a b, d k = d a + ∑ k in Finset.Icc (a + 1) b, d k := by
  have hins : Finset.Icc a b = insert a (Finset.Icc (a + 1) b) := by
    ext k
    simp only [Finset.mem_Icc, Finset.mem_insert]
    omega
  rw [hins, Finset.sum_insert]
  simp only [Finset.mem_Icc]
  omega

lemma cmndGo_getD (d : ℕ → ℝ) :
    ∀ (n j tau : ℕ) (rs : ℝ), j < n →
      (cmndGo d n tau rs).getD j 0 =
        d (tau + j) * ((tau + j : ℕ) : ℝ) /
          (rs + ∑ k in Finset.Icc tau (tau + j), d k) := by
  intro n
  induction n with
  | zero =>
      intro j tau rs h
      omega
  | succ n ih =>
      intro j tau rs hj
      cases j with
      | zero =>
          simp only [cmndGo, List.getD_cons_zero, Nat.add_zero, Finset.Icc_self,
            Finset.sum_singleton]
          ring
      | succ j =>
          have hj' : j < n := by omega
          simp only [cmndGo, List.getD_cons_succ]
          rw [ih j (tau + 1) (rs + d tau) hj']
          have h1 : tau + 1 + j = tau + (j + 1) := by omega
          rw [h1, sum_Icc_split d tau (tau + (j + 1)) (by omega)]
          ring

/-- C4: for every block passing the silence gate, the normalised buffer
satisfies the CMND definition: entry 0 equals 1, and for every lag
`1 ≤ tau < N/2` the entry equals `d(tau) * tau / Σ_{k=1}^{tau} d(k)` where
`d` is the YIN difference function.  (In this embedding division by zero
yields 0; the formula is read the same way.) -/
theorem C4_cmnd_formula (x : List ℝ) (_hgate : ¬ rmsOf x < 0.01) :
    (cmndList x).getD 0 0 = 1 ∧
    ∀ tau : ℕ, 1 ≤ tau → tau < x.length / 2 →
      (cmndList x).getD tau 0 =
        diffFn x tau * (tau : ℝ) / ∑ k in Finset.Icc 1 tau, diffFn x k := by
  refine ⟨rfl, ?_⟩
  intro tau h1 h2
  obtain ⟨j, rfl⟩ : ∃ j, tau = j + 1 := ⟨tau - 1, by omega⟩
  simp only [cmndList, List.getD_cons_succ]
  rw [cmndGo_getD (diffFn x) (x.length / 2 - 1) j 1 0 (by omega)]
  have h3 : 1 + j = j + 1 := by omega
  rw [h3]
  norm_num

lemma rms_blk4 : ¬ rmsOf blk4 < 0.01 := by
  have h1 : (0.01 : ℝ) ≤ Real.sqrt (1 / 2) := by
    rw [show (0.01 : ℝ) = Real.sqrt (0.01 ^ 2) from (Real.sqrt_sq (by norm_num)).symm]
    exact Real.sqrt_le_sqrt (by norm_num)
  apply not_lt.mpr
  calc (0.01 : ℝ) ≤ Real.sqrt (1 / 2) := h1
    _ = rmsOf blk4 := by
        unfold rmsOf blk4
        norm_num

/-- Witness for C4 on the block `[1, 0, 1, 0]` (which passes the gate) at
lag 1. -/
theorem C4_witness :
    (cmndList blk4).getD 0 0 = 1 ∧
    (cmndList blk4).getD 1 0 =
      diffFn blk4 1 * ((1 : ℕ) : ℝ) / ∑ k in Finset.Icc 1 1, diffFn blk4 k :=
  ⟨(C4_cmnd_formula blk4 rms_blk4).1,
   (C4_cmnd_formula blk4 rms_blk4).2 1 le_rfl
     (by norm_num [show blk4.length = 4 from rfl])⟩

/-- C6: a block whose RMS is below 0.01 makes `detect` return the unvoiced
sentinel `(-1, 0)` immediately. -/
theorem C6_silence_gate (sr thr : ℝ) (x : List ℝ) (h : rmsOf x < 0.01) :
    detect sr thr x = (-1, 0) := by
  unfold detect
  rw [if_pos h]

/-- Witness for C6 on a silent block. -/
theorem C6_witness : detect 48000 0.15 [0, 0] = (-1, 0) :=
  C6_silence_gate 48000 0.15 [0, 0] (by
    unfold rmsOf
    norm_num [Real.sqrt_zero])

lemma band_final (freq c : ℝ) :
    (if freq < 50 ∨ freq > 1200 then ((-1 : ℝ), (0 : ℝ)) else (freq, c)).1 ≠ -1 →
      50 ≤ (if freq < 50 ∨ freq > 1200 then ((-1 : ℝ), (0 : ℝ)) else (freq, c)).1 ∧
      (if freq < 50 ∨ freq > 1200 then ((-1 : ℝ), (0 : ℝ)) else (freq, c)).1 ≤ 1200 := by
  split
  · simp
  · rename_i h
    push_neg at h
    intro _
    exact ⟨h.1, h.2⟩

/-- C7: every voiced result of `detect` (first component not the `-1`
sentinel) has its frequency within the band `[50, 1200]` Hz. -/
theorem C7_band_limit (sr thr : ℝ) (x : List ℝ) :
    (detect sr thr x).1 ≠ -1 →
      50 ≤ (detect sr thr x).1 ∧ (detect sr thr x).1 ≤ 1200 := by
  simp only [detect]
  split
  · simp
  · split
    · simp
    · exact band_final _ _

lemma diffFn_blk8_one : diffFn blk8 1 = 16 := by
  unfold diffFn blk8
  norm_num [List.range_succ]

lemma diffFn_blk8_two : diffFn blk8 2 = 0 := by
  unfold diffFn blk8
  norm_num [List.range_succ]

lemma diffFn_blk8_three : diffFn blk8 3 = 16 := by
  unfold diffFn blk8
  norm_num [List.range_succ]

lemma cmndList_blk8 : cmndList blk8 = [1, 1, 0, 3 / 2] := by
  unfold cmndList
  norm_num [show blk8.length = 8 from rfl, cmndGo, diffFn_blk8_one,
    diffFn_blk8_two, diffFn_blk8_three]

lemma detect_blk8 : detect 200 0.15 blk8 = (2000 / 19, 1) := by
  have hrms : ¬ rmsOf blk8 < 0.01 := by
    unfold rmsOf blk8
    norm_num [Real.sqrt_one]
  simp only [detect]
  rw [if_neg hrms, cmndList_blk8]
  norm_num [show blk8.length = 8 from rfl, findDip, walkDip]

/-- Witness for C7: a concrete voiced detection (≈105.3 Hz) lies in band. -/
theorem C7_witness :
    50 ≤ (detect 200 0.15 blk8).1 ∧ (detect 200 0.15 blk8).1 ≤ 1200 :=
  C7_band_limit 200 0.15 blk8 (by
    rw [detect_blk8]
    norm_num)

end WavrTune
